import Mathlib

/-!
# doppler: batching ingestion layer

A shallow embedding of `messaging/worker.go` (the Batcher control loop, the
dispatch wrapper, the worker pool and `ConsumeInBatches`) and of the batch
handler of `kairos/ingest.go`, followed by the properties established about
them.

Modelling conventions

* A Go `map[time.Time]*nats.Msg` is an association list with unique keys
  (`AList`): `currentBatch[now] = m` is `AList.insert`, `len` is the number of
  entries, `range` visits the entries in the order of the list (Go leaves the
  order unspecified).
* A `time.Time` used as a map key is represented by the clock reading, a
  natural number.
* The Batcher goroutine is a step function over the events its `select`
  receives; a `go wrapped(out, ...)` statement is recorded as a `Dispatch`.
* Logging and wall-clock durations are not represented.
-/

namespace messaging

/-- Clock reading returned by `time.Now()`, the key of a batch entry. -/
abbrev Time := Nat

/-- The fields of `nats.Msg` that the pipeline looks at. -/
structure Msg where
  Subject : String
  Reply : String
  Data : List UInt8
deriving DecidableEq, Repr

/-- Go `map[time.Time]*nats.Msg`. -/
abbrev Batch := AList (fun _ : Time => Msg)

/-- Go `len(batch)`. -/
def Batch.len (b : Batch) : Int := (b.entries.length : Int)

/-- The messages held by a batch, in iteration order. -/
def Batch.messages (b : Batch) : List Msg := b.entries.map Sigma.snd

/-- One `go wrapped(out, log.WithField("reason", reason))` statement. -/
structure Dispatch where
  reason : String
  batch : Batch

/-- What the `select` of the Batcher goroutine can receive. -/
inductive Event where
  | incoming (now : Time) (m : Msg)
  | ticker
  | shutdown
deriving DecidableEq

/-- The mutable state captured by the Batcher goroutine. -/
structure Batcher where
  currentBatch : Batch

/-- Outcome of one iteration of the `for { select { ... } }` loop. -/
structure Select where
  state : Batcher
  spawned : List Dispatch
  returned : Bool

/-- One iteration of the loop of `StartBatcher` (worker.go, lines 96-124). -/
def StartBatcher.select (batchSize : Int) (s : Batcher) : Event → Select
  | Event.incoming now m =>
    let currentBatch := s.currentBatch.insert now m
    if Batch.len currentBatch > batchSize then
      { state := { currentBatch := ∅ },
        spawned := [{ reason := "size", batch := currentBatch }],
        returned := false }
    else
      { state := { currentBatch := currentBatch }, spawned := [], returned := false }
  | Event.ticker =>
    if Batch.len s.currentBatch > 0 then
      { state := { currentBatch := ∅ },
        spawned := [{ reason := "timeout", batch := s.currentBatch }],
        returned := false }
    else
      { state := s, spawned := [], returned := false }
  | Event.shutdown =>
    { state := s, spawned := [], returned := true }

/-- The loop of the Batcher goroutine over the events it receives, in order.
The result is the final state and the dispatches spawned, oldest first. -/
def StartBatcher.loop (batchSize : Int) : Batcher → List Event → Batcher × List Dispatch
  | s, [] => (s, [])
  | s, e :: es =>
    let r := StartBatcher.select batchSize s e
    if r.returned then (r.state, r.spawned)
    else
      let rest := StartBatcher.loop batchSize r.state es
      (rest.1, r.spawned ++ rest.2)

/-- State of a Batcher right after `StartBatcher` created it. -/
def StartBatcher.init : Batcher := { currentBatch := ∅ }

/-- The entries `(now, m)` inserted by the arrivals of an event sequence. -/
def arrivals : List Event → List (Sigma (fun _ : Time => Msg))
  | [] => []
  | Event.incoming now m :: es => ⟨now, m⟩ :: arrivals es
  | _ :: es => arrivals es

/-- The arrival of message `e.2` at clock reading `e.1`. -/
def Event.ofEntry (e : Sigma (fun _ : Time => Msg)) : Event := Event.incoming e.1 e.2

/-- All entries of a list of dispatched batches. -/
def dispatchedEntries (ds : List Dispatch) : List (Sigma (fun _ : Time => Msg)) :=
  (ds.map (fun d => d.batch.entries)).flatten

/-- What holds of every dispatch the loop can spawn under `batchSize`. -/
def Dispatch.wellSized (batchSize : Int) (d : Dispatch) : Prop :=
  (d.reason = "size" ∨ d.reason = "timeout") ∧
  1 ≤ Batch.len d.batch ∧
  (d.reason = "size" → Batch.len d.batch = batchSize + 1) ∧
  (d.reason = "timeout" → 1 ≤ Batch.len d.batch ∧ Batch.len d.batch ≤ batchSize)

/-- All messages of a list of dispatched batches. -/
def dispatchedMessages (ds : List Dispatch) : List Msg :=
  (ds.map (fun d => d.batch.messages)).flatten

/-! ### The dispatch wrapper -/

/-- Wrap-around of Go `int64` arithmetic. -/
def wrapInt64 (x : Int) : Int := (x + 2 ^ 63) % 2 ^ 64 - 2 ^ 63

/-- Go `atomic.AddInt64(&v, delta)`: the new value of `v`. -/
def AddInt64 (v delta : Int) : Int := wrapInt64 (v + delta)

/-- Go `type BatchHandler func(batch, log)`: a handler that returns, acting on
the state `W` of whatever lies behind it. -/
abbrev BatchHandler (W : Type) := Batch → W → W

/-- The package-level counters `inflightBatches` and `sentBatches`, the state
behind the handler, and the record of the handler invocations made so far:
the batch passed and the value of `inflightBatches` at the time of the call. -/
structure Process (W : Type) where
  inflightBatches : Int
  sentBatches : Int
  world : W
  calls : List (Batch × Int)

/-- The closure `wrapped` of `StartBatcher` (worker.go, lines 74-91). -/
def StartBatcher.wrapped {W : Type} (h : BatchHandler W) (batch : Batch)
    (p : Process W) : Process W :=
  let flying := AddInt64 p.inflightBatches 1
  let p1 : Process W := { p with inflightBatches := flying }
  let p2 : Process W :=
    { p1 with world := h batch p1.world, calls := p1.calls ++ [(batch, p1.inflightBatches)] }
  let p3 : Process W := { p2 with inflightBatches := AddInt64 p2.inflightBatches (-1) }
  { p3 with sentBatches := AddInt64 p3.sentBatches 1 }

/-! ### The worker pool -/

/-- Go `sync.WaitGroup`: the number of `Add(1)` not yet matched by a `Done()`. -/
structure WaitGroup where
  counter : Int
deriving DecidableEq, Repr

/-- A worker goroutine started by `BuildBatchingWorkerPool`: it owns the
Batcher it created and sits in `for m := range shared { in <- m }`. -/
structure Worker where
  worker_id : Int
  batcher : Batcher

/-- The goroutines started by the pool and its completion barrier. -/
structure Pool where
  wg : WaitGroup
  workers : List Worker

/-- Body of `for i := poolSize; i > 0; i--`, by recursion on `i`. -/
def BuildBatchingWorkerPool.spawn : Nat → Pool → Pool
  | 0, pool => pool
  | i + 1, pool =>
    BuildBatchingWorkerPool.spawn i
      { wg := { counter := pool.wg.counter + 1 },
        workers := pool.workers ++
          [{ worker_id := ((i + 1 : Nat) : Int), batcher := StartBatcher.init }] }

/-- Go `BuildBatchingWorkerPool`: the pool it started and its error result,
which is always nil. -/
def BuildBatchingWorkerPool (poolSize : Int) : Pool × Option String :=
  (BuildBatchingWorkerPool.spawn poolSize.toNat { wg := { counter := 0 }, workers := [] }, none)

/-- What happens inside a running pool: worker number `worker` (position in
`Pool.workers`) takes `m` from the shared queue and its Batcher receives it at
clock reading `now`, or the ticker of that worker's Batcher fires. The
shutdown port of the Batcher is discarded by the worker (`in, _ := ...`), so
no shutdown event exists here. -/
inductive PoolEvent where
  | receive (worker : Nat) (now : Time) (m : Msg)
  | ticker (worker : Nat)
deriving DecidableEq

/-- The worker concerned by a pool event. -/
def PoolEvent.worker : PoolEvent → Nat
  | PoolEvent.receive w _ _ => w
  | PoolEvent.ticker w => w

/-- The event seen by the Batcher of the worker concerned. -/
def PoolEvent.event : PoolEvent → Event
  | PoolEvent.receive _ now m => Event.incoming now m
  | PoolEvent.ticker _ => Event.ticker

/-- One pool event: the Batcher of the worker concerned makes one iteration. -/
def Pool.step (batchSize : Int) (ws : List Worker) (e : PoolEvent) :
    List Worker × List Dispatch :=
  match ws[e.worker]? with
  | none => (ws, [])
  | some w =>
    let r := StartBatcher.select batchSize w.batcher e.event
    (ws.set e.worker { w with batcher := r.state }, r.spawned)

/-- A sequence of pool events: the final workers and all dispatches spawned. -/
def Pool.run (batchSize : Int) : List Worker → List PoolEvent → List Worker × List Dispatch
  | ws, [] => (ws, [])
  | ws, e :: es =>
    let r := Pool.step batchSize ws e
    let rest := Pool.run batchSize r.1 es
    (rest.1, r.2 ++ rest.2)

/-- The messages taken from the shared queue, in the order they were taken. -/
def Pool.taken : List PoolEvent → List Msg
  | [] => []
  | PoolEvent.receive _ _ m :: es => m :: Pool.taken es
  | PoolEvent.ticker _ :: es => Pool.taken es

/-- The entries held in the current batches of the workers. -/
def Pool.entries (ws : List Worker) : List (Sigma (fun _ : Time => Msg)) :=
  (ws.map (fun w => w.batcher.currentBatch.entries)).flatten

/-- The messages held in the current batches of the workers. -/
def Pool.held (ws : List Worker) : List Msg :=
  (ws.map (fun w => w.batcher.currentBatch.messages)).flatten

/-- The Batcher events of worker number `i` within a pool event sequence. -/
def Pool.eventsAt (i : Nat) (es : List PoolEvent) : List Event :=
  (es.filter (fun e => e.worker = i)).map PoolEvent.event

/-! ### Subscription and start-up -/

/-- The configuration values read by `ConsumeInBatches`. -/
structure IngestConfig where
  BufferSize : Int
  PoolSize : Int
  BatchSize : Int
  BatchTimeout : Int
  Subject : String
  Group : String

/-- Go `nats.Subscription`, as far as it is identified here. -/
structure Subscription where
  Subject : String
  Queue : String
deriving DecidableEq, Repr

/-- The two methods of `nats.Conn` used by `BufferedSubscribe`; what they
answer is up to the bus. -/
structure Conn where
  Subscribe : String → Except String Subscription
  QueueSubscribe : String → String → Except String Subscription

/-- Go `BufferedSubscribe` (worker.go, lines 30-39). -/
def BufferedSubscribe (nc : Conn) (subject group : String) : Except String Subscription :=
  if group ≠ "" then nc.QueueSubscribe subject group
  else nc.Subscribe subject

/-- Go `make(chan *nats.Msg, size)`: it panics when `size` is negative or above
`maxChan`, the largest capacity the runtime accepts for such a channel;
`Except.error` carries the panic. Running out of memory is not represented. -/
def makechan (maxChan size : Int) : Except String Unit :=
  if size < 0 ∨ maxChan < size then Except.error "makechan: size out of range"
  else Except.ok ()

/-- Go `StartBatcher` up to the start of its goroutine (worker.go, lines 67-72):
the Batcher it creates, or the panic of `make(chan *nats.Msg, batchSize)`. -/
def StartBatcher (maxChan batchSize : Int) : Except String Batcher :=
  match makechan maxChan batchSize with
  | Except.error p => Except.error p
  | Except.ok _ => Except.ok StartBatcher.init

/-- The start of the worker goroutines (worker.go, lines 47-51): each one calls
`StartBatcher(timeout, batchSize, l, h)`; a panic there is not recovered and
ends the program. -/
def BuildBatchingWorkerPool.start (maxChan batchSize : Int) :
    List Worker → Except String (List Worker)
  | [] => Except.ok []
  | w :: ws =>
    match StartBatcher maxChan batchSize with
    | Except.error p => Except.error p
    | Except.ok b =>
      match BuildBatchingWorkerPool.start maxChan batchSize ws with
      | Except.error p => Except.error p
      | Except.ok started => Except.ok ({ w with batcher := b } :: started)

/-- What exists after `ConsumeInBatches` has returned: the shared queue
(`sharedClosed` tells whether `close(shared)` was executed) and the worker
goroutines that were started. -/
structure Runtime where
  sharedClosed : Bool
  pool : Pool

/-- The workers still running: a worker leaves `for m := range shared` only
once the shared queue is closed. -/
def Runtime.running (rt : Runtime) : List Worker :=
  if rt.sharedClosed then [] else rt.pool.workers

/-- The three results of `ConsumeInBatches`, nil being `none`. -/
structure ConsumeResult where
  sub : Option Subscription
  wg : Option WaitGroup
  err : Option String
deriving DecidableEq, Repr

/-- Go `ConsumeInBatches` (worker.go, lines 12-28), with what it leaves behind.
`Except.error` is a panic that ends the program: that of
`make(chan *nats.Msg, config.BufferSize)` on line 13, or that of a worker in
`StartBatcher` (line 71), which takes the program down whether or not the call
has returned by then. `Except.ok` is a return, with the runtime left behind. -/
def ConsumeInBatches (maxChan : Int) (nc : Conn) (config : IngestConfig) :
    Except String (ConsumeResult × Runtime) :=
  match makechan maxChan config.BufferSize with
  | Except.error p => Except.error p
  | Except.ok _ =>
    let built := BuildBatchingWorkerPool config.PoolSize
    match BuildBatchingWorkerPool.start maxChan config.BatchSize built.1.workers with
    | Except.error p => Except.error p
    | Except.ok workers =>
      let rt : Runtime :=
        { sharedClosed := false, pool := { wg := built.1.wg, workers := workers } }
      match built.2 with
      | some err => Except.ok ({ sub := none, wg := none, err := some err }, rt)
      | none =>
        match BufferedSubscribe nc config.Subject config.Group with
        | Except.error err => Except.ok ({ sub := none, wg := none, err := some err }, rt)
        | Except.ok sub => Except.ok ({ sub := some sub, wg := some built.1.wg, err := none }, rt)

end messaging

namespace kairos

open messaging

/-- Dynamic type and value of a dimension (`interface{}`), as told apart by
the type switch of the handler. Floating-point values are kept as their bits. -/
inductive Dim where
  | string (s : String)
  | int (v : Int)
  | int32 (v : Int)
  | int64 (v : Int)
  | float32 (bits : Nat)
  | float64 (bits : Nat)
  | bool (b : Bool)
  | other (typeName : String)
deriving DecidableEq, Repr

/-- The fields of `metrics.RawMetric` read by the handler; `Timestamp` is the
instant as the `UnixNano()` reading, nanoseconds since the Unix epoch. -/
structure RawMetric where
  Name : String
  Value : Int
  Timestamp : Int
  Dims : AList (fun _ : String => Dim)

/-- The `Point` sent to kairos. -/
structure Point where
  Value : Int
  Name : String
  Timestamp : Int
  Tags : AList (fun _ : String => Dim)

/-- The `for k, v := range incomingMetric.Dims` loop (ingest.go, lines 71-85). -/
def buildHandler.tags (TrimSpace : String → String) :
    List (Sigma (fun _ : String => Dim)) → AList (fun _ : String => Dim) →
    AList (fun _ : String => Dim)
  | [], tags => tags
  | ⟨k, v⟩ :: rest, tags =>
    match v with
    | Dim.string s =>
      if TrimSpace s = "" then buildHandler.tags TrimSpace rest tags
      else buildHandler.tags TrimSpace rest (tags.insert k v)
    | Dim.other _ => buildHandler.tags TrimSpace rest tags
    | _ => buildHandler.tags TrimSpace rest (tags.insert k v)

/-- The conversion of one parsed metric (ingest.go, lines 63-85). -/
def buildHandler.outMetric (TrimSpace : String → String) (incomingMetric : RawMetric) : Point :=
  { Value := incomingMetric.Value,
    Name := incomingMetric.Name,
    Timestamp := Int.tdiv incomingMetric.Timestamp 1000,
    Tags := buildHandler.tags TrimSpace incomingMetric.Dims.entries ∅ }

/-- The local variables of the parsing block. -/
structure Parsed where
  payload : List Point
  parseFailed : Int
  parseSuccess : Int

/-- The `for _, raw := range batch` loop (ingest.go, lines 54-88);
`Unmarshal` is `json.Unmarshal` into a `RawMetric`, `none` on error. -/
def buildHandler.parse (Unmarshal : List UInt8 → Option RawMetric)
    (TrimSpace : String → String) : List Msg → Parsed → Parsed
  | [], acc => acc
  | raw :: rest, acc =>
    match Unmarshal raw.Data with
    | none =>
      buildHandler.parse Unmarshal TrimSpace rest { acc with parseFailed := acc.parseFailed + 1 }
    | some incomingMetric =>
      buildHandler.parse Unmarshal TrimSpace rest
        { acc with
          parseSuccess := acc.parseSuccess + 1,
          payload := acc.payload ++ [buildHandler.outMetric TrimSpace incomingMetric] }

/-- What the handler acts on: the payloads passed to `client.AddPoints`, oldest
first, and the `doppler.kairos.*` counters. -/
structure World where
  addPoints : List (List Point)
  incoming_batch_size : Int
  outgoing_batch_size : Int
  failed_batch : Int
  successful_batch : Int

/-- Go `buildHandler` (ingest.go, lines 42-117); `AddPoints` tells whether the
write of a payload fails. -/
def buildHandler (AddPoints : List Point → Option String)
    (Unmarshal : List UInt8 → Option RawMetric) (TrimSpace : String → String) :
    BatchHandler World :=
  fun batch w =>
    let r := buildHandler.parse Unmarshal TrimSpace batch.messages
      { payload := [], parseFailed := 0, parseSuccess := 0 }
    let w1 : World :=
      { w with
        incoming_batch_size := w.incoming_batch_size + (r.parseFailed + r.parseSuccess),
        outgoing_batch_size := w.outgoing_batch_size + (r.payload.length : Int) }
    let w2 : World := { w1 with addPoints := w1.addPoints ++ [r.payload] }
    match AddPoints r.payload with
    | some _ => { w2 with failed_batch := w2.failed_batch + 1 }
    | none => { w2 with successful_batch := w2.successful_batch + 1 }

end kairos

namespace messaging

theorem len_empty : Batch.len (∅ : Batch) = 0 := by
  simp [Batch.len]

theorem len_insert_le (b : Batch) (now : Time) (m : Msg) :
    Batch.len (b.insert now m) ≤ Batch.len b + 1 := by
  unfold Batch.len
  rw [AList.insert_entries]
  have h := (List.kerase_sublist now b.entries).length_le
  simp only [List.length_cons]
  push_cast
  omega

theorem len_insert_of_not_mem (b : Batch) (now : Time) (m : Msg) (h : now ∉ b) :
    Batch.len (b.insert now m) = Batch.len b + 1 := by
  unfold Batch.len
  rw [AList.insert_entries_of_neg h]
  simp

theorem len_insert_of_mem (b : Batch) (now : Time) (m : Msg) (h : now ∈ b) :
    Batch.len (b.insert now m) = Batch.len b := by
  unfold Batch.len
  rw [AList.insert_entries]
  have hk : now ∈ b.entries.keys := h
  obtain ⟨v, l₁, l₂, _, h1, h2⟩ := List.exists_of_kerase hk
  rw [h2, h1]
  simp
  omega

end messaging

namespace messaging

/-! ### Basic facts about one iteration and about the loop -/

theorem len_pos_iff (b : Batch) : Batch.len b > 0 ↔ b ≠ ∅ := by
  unfold Batch.len
  constructor
  · intro h hb
    rw [hb] at h
    simp at h
  · intro h
    have : b.entries ≠ [] := by
      intro he
      apply h
      apply AList.ext
      simpa using he
    have := List.length_pos.mpr this
    omega

theorem select_incoming_flush (batchSize : Int) (s : Batcher) (now : Time) (m : Msg)
    (h : Batch.len (s.currentBatch.insert now m) > batchSize) :
    StartBatcher.select batchSize s (Event.incoming now m) =
      { state := { currentBatch := ∅ },
        spawned := [{ reason := "size", batch := s.currentBatch.insert now m }],
        returned := false } := by
  simp [StartBatcher.select, h]

theorem select_incoming_keep (batchSize : Int) (s : Batcher) (now : Time) (m : Msg)
    (h : ¬ Batch.len (s.currentBatch.insert now m) > batchSize) :
    StartBatcher.select batchSize s (Event.incoming now m) =
      { state := { currentBatch := s.currentBatch.insert now m },
        spawned := [], returned := false } := by
  simp [StartBatcher.select, h]

theorem select_ticker_flush (batchSize : Int) (s : Batcher) (h : Batch.len s.currentBatch > 0) :
    StartBatcher.select batchSize s Event.ticker =
      { state := { currentBatch := ∅ },
        spawned := [{ reason := "timeout", batch := s.currentBatch }],
        returned := false } := by
  simp [StartBatcher.select, h]

theorem select_ticker_idle (batchSize : Int) (s : Batcher) (h : ¬ Batch.len s.currentBatch > 0) :
    StartBatcher.select batchSize s Event.ticker =
      { state := s, spawned := [], returned := false } := by
  simp [StartBatcher.select, h]

theorem select_returned (batchSize : Int) (s : Batcher) (e : Event) :
    (StartBatcher.select batchSize s e).returned = true ↔ e = Event.shutdown := by
  cases e with
  | incoming now m =>
    by_cases h : Batch.len (s.currentBatch.insert now m) > batchSize
    · simp [select_incoming_flush _ _ _ _ h]
    · simp [select_incoming_keep _ _ _ _ h]
  | ticker =>
    by_cases h : Batch.len s.currentBatch > 0
    · simp [select_ticker_flush _ _ h]
    · simp [select_ticker_idle _ _ h]
  | shutdown => simp [StartBatcher.select]

theorem loop_nil (batchSize : Int) (s : Batcher) :
    StartBatcher.loop batchSize s [] = (s, []) := rfl

theorem loop_cons_shutdown (batchSize : Int) (s : Batcher) (es : List Event) :
    StartBatcher.loop batchSize s (Event.shutdown :: es) = (s, []) := by
  simp [StartBatcher.loop, StartBatcher.select]

theorem loop_cons (batchSize : Int) (s : Batcher) (e : Event) (es : List Event)
    (he : e ≠ Event.shutdown) :
    StartBatcher.loop batchSize s (e :: es) =
      ((StartBatcher.loop batchSize (StartBatcher.select batchSize s e).state es).1,
        (StartBatcher.select batchSize s e).spawned ++
          (StartBatcher.loop batchSize (StartBatcher.select batchSize s e).state es).2) := by
  have hr : (StartBatcher.select batchSize s e).returned = false := by
    cases hv : (StartBatcher.select batchSize s e).returned with
    | false => rfl
    | true => exact absurd ((select_returned batchSize s e).mp hv) he
  simp [StartBatcher.loop, hr]

theorem loop_append (batchSize : Int) (pre post : List Event) (hpre : Event.shutdown ∉ pre) :
    ∀ s : Batcher, StartBatcher.loop batchSize s (pre ++ post) =
      ((StartBatcher.loop batchSize (StartBatcher.loop batchSize s pre).1 post).1,
        (StartBatcher.loop batchSize s pre).2 ++
          (StartBatcher.loop batchSize (StartBatcher.loop batchSize s pre).1 post).2) := by
  induction pre with
  | nil => intro s; simp [loop_nil]
  | cons e es ih =>
    intro s
    have he : e ≠ Event.shutdown := fun h => hpre (by simp [h])
    have hes : Event.shutdown ∉ es := fun h => hpre (by simp [h])
    rw [List.cons_append, loop_cons _ _ _ _ he, loop_cons _ _ _ _ he, ih hes]
    simp

end messaging

namespace messaging

/-! ### The size invariant of the loop -/

theorem select_wellSized (batchSize : Int) (hbs : 0 ≤ batchSize) (s : Batcher)
    (hs : Batch.len s.currentBatch ≤ batchSize) (e : Event) :
    Batch.len (StartBatcher.select batchSize s e).state.currentBatch ≤ batchSize ∧
    ∀ d ∈ (StartBatcher.select batchSize s e).spawned, Dispatch.wellSized batchSize d := by
  cases e with
  | incoming now m =>
    have hle := len_insert_le s.currentBatch now m
    by_cases h : Batch.len (s.currentBatch.insert now m) > batchSize
    · rw [select_incoming_flush _ _ _ _ h]
      refine ⟨by simpa [len_empty] using hbs, ?_⟩
      intro d hd
      simp only [List.mem_singleton] at hd
      subst hd
      refine ⟨Or.inl rfl, by simp only; omega, fun _ => by simp only; omega, fun hr => ?_⟩
      have hne : ("size" : String) ≠ "timeout" := by decide
      exact absurd hr hne
    · rw [select_incoming_keep _ _ _ _ h]
      exact ⟨by simpa using h, by simp⟩
  | ticker =>
    by_cases h : Batch.len s.currentBatch > 0
    · rw [select_ticker_flush _ _ h]
      refine ⟨by simpa [len_empty] using hbs, ?_⟩
      intro d hd
      simp only [List.mem_singleton] at hd
      subst hd
      refine ⟨Or.inr rfl, by simp only; omega, fun hr => ?_, fun _ => ⟨by simp only; omega, hs⟩⟩
      have hne : ("timeout" : String) ≠ "size" := by decide
      exact absurd hr hne
    · rw [select_ticker_idle _ _ h]
      exact ⟨hs, by simp⟩
  | shutdown =>
    simp only [StartBatcher.select]
    exact ⟨hs, by simp⟩

theorem loop_wellSized (batchSize : Int) (hbs : 0 ≤ batchSize) (evs : List Event) :
    ∀ s : Batcher, Batch.len s.currentBatch ≤ batchSize →
      Batch.len (StartBatcher.loop batchSize s evs).1.currentBatch ≤ batchSize ∧
      ∀ d ∈ (StartBatcher.loop batchSize s evs).2, Dispatch.wellSized batchSize d := by
  induction evs with
  | nil => intro s hs; simpa [loop_nil] using hs
  | cons e es ih =>
    intro s hs
    have hsel := select_wellSized batchSize hbs s hs e
    by_cases he : e = Event.shutdown
    · subst he
      rw [loop_cons_shutdown]
      exact ⟨hs, by simp⟩
    · rw [loop_cons _ _ _ _ he]
      have hrest := ih _ hsel.1
      refine ⟨hrest.1, ?_⟩
      intro d hd
      rcases List.mem_append.mp hd with h | h
      · exact hsel.2 d h
      · exact hrest.2 d h

/-- C2: a timer tick on a non-empty current batch spawns exactly one dispatch,
of the whole current batch, tagged `timeout`, and leaves the current batch
empty; a tick on an empty current batch spawns nothing and leaves the state
unchanged; one message held until the tick (batch size at least 1) is
dispatched alone, as one batch of size 1 tagged `timeout`. -/
theorem timeout_flush (batchSize : Int) (s : Batcher) :
    (s.currentBatch ≠ ∅ →
      StartBatcher.select batchSize s Event.ticker =
        { state := { currentBatch := ∅ },
          spawned := [{ reason := "timeout", batch := s.currentBatch }],
          returned := false }) ∧
    (s.currentBatch = ∅ →
      StartBatcher.select batchSize s Event.ticker =
        { state := s, spawned := [], returned := false }) ∧
    (∀ (now : Time) (m : Msg), 1 ≤ batchSize →
      StartBatcher.loop batchSize StartBatcher.init [Event.incoming now m, Event.ticker] =
        (StartBatcher.init, [{ reason := "timeout", batch := AList.singleton now m }]) ∧
      Batch.len (AList.singleton now m) = 1 ∧
      Batch.messages (AList.singleton now m) = [m]) := by
  refine ⟨fun h => select_ticker_flush _ _ ((len_pos_iff _).mpr h), fun h => ?_, ?_⟩
  · apply select_ticker_idle
    rw [h, len_empty]
    decide
  · intro now m hbs
    have hins : (∅ : Batch).insert now m = AList.singleton now m :=
      @AList.insert_empty Time (fun _ => Msg) _ now m
    have hlen : Batch.len (AList.singleton now m : Batch) = 1 := by
      simp [Batch.len]
    refine ⟨?_, hlen, by simp [Batch.messages]⟩
    have h1 : ¬ Batch.len ((StartBatcher.init).currentBatch.insert now m) > batchSize := by
      simp only [StartBatcher.init]
      rw [hins, hlen]
      omega
    rw [loop_cons _ _ _ _ (by simp), select_incoming_keep _ _ _ _ h1]
    simp only [StartBatcher.init]
    rw [hins]
    have h2 : Batch.len (AList.singleton now m : Batch) > 0 := by rw [hlen]; decide
    rw [loop_cons _ _ _ _ (by simp),
      select_ticker_flush batchSize { currentBatch := AList.singleton now m } h2]
    simp [loop_nil]

/-- Witness of C2: a batch holding one message is flushed by a tick, the empty
batch is not, under batch size 100. -/
theorem timeout_flush_witness :
    StartBatcher.select 100 { currentBatch := AList.singleton 7 ⟨"metrics", "", [1]⟩ } Event.ticker =
        { state := { currentBatch := ∅ },
          spawned := [{ reason := "timeout", batch := AList.singleton 7 ⟨"metrics", "", [1]⟩ }],
          returned := false } ∧
    StartBatcher.select 100 { currentBatch := ∅ } Event.ticker =
        { state := { currentBatch := ∅ }, spawned := [], returned := false } ∧
    StartBatcher.loop 100 StartBatcher.init
        [Event.incoming 7 ⟨"metrics", "", [1]⟩, Event.ticker] =
      (StartBatcher.init, [{ reason := "timeout", batch := AList.singleton 7 ⟨"metrics", "", [1]⟩ }]) :=
  ⟨(timeout_flush 100 { currentBatch := AList.singleton 7 ⟨"metrics", "", [1]⟩ }).1
      (by intro h; have := congrArg AList.entries h; simp at this),
    (timeout_flush 100 { currentBatch := ∅ }).2.1 rfl,
    ((timeout_flush 100 StartBatcher.init).2.2 7 ⟨"metrics", "", [1]⟩ (by decide)).1⟩

/-- C8: a shutdown signal makes the loop return without spawning any dispatch,
whatever the current batch holds: the events received before it decide the
result alone, what was accumulated stays undispatched, and no event after the
signal is processed. -/
theorem shutdown_drops_batch (batchSize : Int) (s : Batcher) (pre later : List Event)
    (hpre : Event.shutdown ∉ pre) :
    StartBatcher.select batchSize s Event.shutdown =
      { state := s, spawned := [], returned := true } ∧
    StartBatcher.loop batchSize s (Event.shutdown :: later) = (s, []) ∧
    StartBatcher.loop batchSize s (pre ++ Event.shutdown :: later) =
      StartBatcher.loop batchSize s pre := by
  refine ⟨rfl, loop_cons_shutdown _ _ _, ?_⟩
  rw [loop_append _ _ _ hpre, loop_cons_shutdown]
  simp

/-- Witness of C8: a batch of one message, a second arrival, then shutdown
followed by a tick: nothing is dispatched. -/
theorem shutdown_drops_batch_witness :
    Event.shutdown ∉ [Event.incoming 2 ⟨"b", "", []⟩] ∧
    StartBatcher.loop 5 { currentBatch := AList.singleton 1 ⟨"a", "", []⟩ }
        ([Event.incoming 2 ⟨"b", "", []⟩] ++ Event.shutdown :: [Event.ticker]) =
      StartBatcher.loop 5 { currentBatch := AList.singleton 1 ⟨"a", "", []⟩ }
        [Event.incoming 2 ⟨"b", "", []⟩] :=
  ⟨by decide,
    (shutdown_drops_batch 5 { currentBatch := AList.singleton 1 ⟨"a", "", []⟩ }
      [Event.incoming 2 ⟨"b", "", []⟩] [Event.ticker] (by decide)).2.2⟩

/-- C10: for a batch size that is not negative and any sequence of events from
the empty batch, the current batch holds at most `batchSize` messages after
each event, and every dispatch is tagged `size` or `timeout`, is non-empty,
holds exactly `batchSize + 1` messages when tagged `size` and between 1 and
`batchSize` messages when tagged `timeout`. -/
theorem batch_size_invariant (batchSize : Int) (hbs : 0 ≤ batchSize) (evs : List Event) :
    (∀ i : Nat,
      Batch.len (StartBatcher.loop batchSize StartBatcher.init (evs.take i)).1.currentBatch
        ≤ batchSize) ∧
    ∀ d ∈ (StartBatcher.loop batchSize StartBatcher.init evs).2,
      (d.reason = "size" ∨ d.reason = "timeout") ∧
      1 ≤ Batch.len d.batch ∧
      (d.reason = "size" → Batch.len d.batch = batchSize + 1) ∧
      (d.reason = "timeout" → 1 ≤ Batch.len d.batch ∧ Batch.len d.batch ≤ batchSize) := by
  have h0 : Batch.len StartBatcher.init.currentBatch ≤ batchSize := by
    simpa [StartBatcher.init, len_empty] using hbs
  exact ⟨fun i => (loop_wellSized batchSize hbs (evs.take i) _ h0).1,
    fun d hd => (loop_wellSized batchSize hbs evs _ h0).2 d hd⟩

/-- Witness of C10: batch size 1, three arrivals (two under the same key) and a
tick. -/
theorem batch_size_invariant_witness :
    (0 : Int) ≤ 1 ∧
    ∀ d ∈ (StartBatcher.loop 1 StartBatcher.init
        [Event.incoming 1 ⟨"a", "", []⟩, Event.incoming 1 ⟨"b", "", []⟩,
          Event.incoming 2 ⟨"c", "", []⟩, Event.ticker]).2,
      (d.reason = "size" ∨ d.reason = "timeout") ∧
      1 ≤ Batch.len d.batch ∧
      (d.reason = "size" → Batch.len d.batch = 1 + 1) ∧
      (d.reason = "timeout" → 1 ≤ Batch.len d.batch ∧ Batch.len d.batch ≤ 1) :=
  ⟨by decide, (batch_size_invariant 1 (by decide) _).2⟩

end messaging

namespace messaging

/-! ### Where the entries go -/

theorem dispatchedEntries_nil : dispatchedEntries [] = [] := rfl

theorem dispatchedEntries_append (xs ys : List Dispatch) :
    dispatchedEntries (xs ++ ys) = dispatchedEntries xs ++ dispatchedEntries ys := by
  simp [dispatchedEntries]

theorem dispatchedMessages_eq (ds : List Dispatch) :
    dispatchedMessages ds = (dispatchedEntries ds).map Sigma.snd := by
  induction ds with
  | nil => rfl
  | cons d ds ih =>
    simp only [dispatchedMessages, dispatchedEntries, List.map_cons, List.flatten_cons,
      List.map_append] at ih ⊢
    rw [ih]
    rfl

theorem arrivals_cons_ne (e : Event) (es : List Event) :
    arrivals (e :: es) = arrivals [e] ++ arrivals es := by
  cases e <;> simp [arrivals]

/-- One iteration neither loses nor duplicates an entry, as long as the key of
an arriving message is not in the current batch. -/
theorem select_entries (batchSize : Int) (s : Batcher) (e : Event)
    (hfresh : ∀ now m, e = Event.incoming now m → now ∉ s.currentBatch) :
    dispatchedEntries (StartBatcher.select batchSize s e).spawned ++
        (StartBatcher.select batchSize s e).state.currentBatch.entries =
      arrivals [e] ++ s.currentBatch.entries := by
  cases e with
  | incoming now m =>
    have hn := hfresh now m rfl
    by_cases h : Batch.len (s.currentBatch.insert now m) > batchSize
    · rw [select_incoming_flush _ _ _ _ h]
      simp [dispatchedEntries, arrivals, AList.insert_entries, List.kerase_of_not_mem_keys hn]
    · rw [select_incoming_keep _ _ _ _ h]
      simp [dispatchedEntries, arrivals, AList.insert_entries, List.kerase_of_not_mem_keys hn]
  | ticker =>
    by_cases h : Batch.len s.currentBatch > 0
    · rw [select_ticker_flush _ _ h]
      simp [dispatchedEntries, arrivals]
    · rw [select_ticker_idle _ _ h]
      simp [dispatchedEntries, arrivals]
  | shutdown => simp [StartBatcher.select, dispatchedEntries, arrivals]

/-- The keys of the current batch after one iteration were there before or
have just arrived. -/
theorem select_keys (batchSize : Int) (s : Batcher) (e : Event) (k : Time)
    (hk : k ∈ (StartBatcher.select batchSize s e).state.currentBatch) :
    k ∈ s.currentBatch ∨ k ∈ (arrivals [e]).keys := by
  cases e with
  | incoming now m =>
    by_cases h : Batch.len (s.currentBatch.insert now m) > batchSize
    · rw [select_incoming_flush _ _ _ _ h] at hk
      exact absurd hk (AList.not_mem_empty k)
    · rw [select_incoming_keep _ _ _ _ h] at hk
      rcases (AList.mem_insert s.currentBatch).mp hk with h1 | h1
      · right; simp [arrivals, List.keys, h1]
      · left; exact h1
  | ticker =>
    by_cases h : Batch.len s.currentBatch > 0
    · rw [select_ticker_flush _ _ h] at hk
      exact absurd hk (AList.not_mem_empty k)
    · rw [select_ticker_idle _ _ h] at hk
      left; exact hk
  | shutdown => left; exact hk

/-- The loop neither loses nor duplicates an entry when no shutdown is
received and the arrival keys are distinct from each other and from the keys
already in the batch. -/
theorem loop_entries (batchSize : Int) (evs : List Event) (hno : Event.shutdown ∉ evs) :
    ∀ s : Batcher, (arrivals evs).keys.Nodup →
      (∀ k ∈ (arrivals evs).keys, k ∉ s.currentBatch) →
      (dispatchedEntries (StartBatcher.loop batchSize s evs).2 ++
          (StartBatcher.loop batchSize s evs).1.currentBatch.entries).Perm
        (arrivals evs ++ s.currentBatch.entries) := by
  induction evs with
  | nil => intro s _ _; simp [loop_nil, dispatchedEntries, arrivals]
  | cons e es ih =>
    intro s hnd hfresh
    have he : e ≠ Event.shutdown := fun h => hno (by simp [h])
    have hes : Event.shutdown ∉ es := fun h => hno (by simp [h])
    rw [arrivals_cons_ne] at hnd hfresh
    rw [List.keys, List.map_append] at hnd hfresh
    have hnd2 := List.nodup_append.mp hnd
    have hf1 : ∀ now m, e = Event.incoming now m → now ∉ s.currentBatch := by
      intro now m hem
      apply hfresh
      subst hem
      simp [arrivals]
    have hsel := select_entries batchSize s e hf1
    have hrest := ih hes (StartBatcher.select batchSize s e).state hnd2.2.1 (by
      intro k hk hmem
      rcases select_keys batchSize s e k hmem with h1 | h1
      · exact hfresh k (List.mem_append_right _ hk) h1
      · exact hnd2.2.2 h1 hk)
    rw [loop_cons _ _ _ _ he, arrivals_cons_ne]
    simp only [dispatchedEntries_append]
    have step1 := List.Perm.append_left
      (dispatchedEntries (StartBatcher.select batchSize s e).spawned) hrest
    have step2 : (dispatchedEntries (StartBatcher.select batchSize s e).spawned ++
        (arrivals es ++ (StartBatcher.select batchSize s e).state.currentBatch.entries)).Perm
        (arrivals es ++ (arrivals [e] ++ s.currentBatch.entries)) := by
      rw [← hsel, ← List.append_assoc, ← List.append_assoc]
      exact List.Perm.append_right _ List.perm_append_comm
    have step3 : (arrivals es ++ (arrivals [e] ++ s.currentBatch.entries)).Perm
        (arrivals [e] ++ arrivals es ++ s.currentBatch.entries) := by
      rw [← List.append_assoc]
      exact List.Perm.append_right _ List.perm_append_comm
    rw [List.append_assoc]
    exact (step1.trans step2).trans step3

end messaging

namespace messaging

/-! ### Accumulation below the threshold -/

theorem loop_accumulate (batchSize : Int) (msgs : List (Sigma (fun _ : Time => Msg))) :
    ∀ s : Batcher, msgs.keys.Nodup → (∀ k ∈ msgs.keys, k ∉ s.currentBatch) →
      Batch.len s.currentBatch + (msgs.length : Int) ≤ batchSize →
      (StartBatcher.loop batchSize s (msgs.map Event.ofEntry)).2 = [] ∧
      (StartBatcher.loop batchSize s (msgs.map Event.ofEntry)).1.currentBatch.entries =
        msgs.reverse ++ s.currentBatch.entries := by
  induction msgs with
  | nil => intro s _ _ _; simp [loop_nil]
  | cons e es ih =>
    intro s hnd hfresh hlen
    have hnd2 : e.1 ∉ es.keys ∧ es.keys.Nodup := by
      simpa [List.keys] using hnd
    have hne : e.1 ∉ s.currentBatch := hfresh e.1 (by simp [List.keys])
    have hl := len_insert_of_not_mem s.currentBatch e.1 e.2 hne
    have hkeep : ¬ Batch.len (s.currentBatch.insert e.1 e.2) > batchSize := by
      rw [hl]
      simp only [List.length_cons] at hlen
      push_cast at hlen
      omega
    have hrest := ih { currentBatch := s.currentBatch.insert e.1 e.2 } hnd2.2 (by
      intro k hk hmem
      rcases (AList.mem_insert s.currentBatch).mp hmem with h1 | h1
      · exact hnd2.1 (h1 ▸ hk)
      · exact hfresh k (by simp [List.keys] at hk ⊢; exact Or.inr hk) h1) (by
      simp only [List.length_cons] at hlen
      push_cast at hlen
      rw [hl]
      omega)
    simp only [List.map_cons, Event.ofEntry]
    rw [loop_cons _ _ _ _ (by simp), select_incoming_keep _ _ _ _ hkeep]
    refine ⟨by simpa [Event.ofEntry] using hrest.1, ?_⟩
    have h2 := hrest.2
    simp only [Event.ofEntry] at h2
    rw [h2]
    simp [AList.insert_entries, List.kerase_of_not_mem_keys hne]

/-- C1: with `batchSize = n` and the empty batch to start from, `n + 1`
arrivals with pairwise distinct keys and nothing else in between: the first `n`
arrivals spawn no dispatch, and after the last one exactly one dispatch has
been spawned, tagged `size`, whose batch has `n + 1` entries, namely the
`n + 1` arrivals, each message under its own key; the current batch is empty
again. -/
theorem size_flush (n : Nat) (msgs : List (Sigma (fun _ : Time => Msg)))
    (hlen : msgs.length = n + 1) (hkeys : msgs.keys.Nodup) :
    (StartBatcher.loop (n : Int) StartBatcher.init ((msgs.take n).map Event.ofEntry)).2 = [] ∧
    ∃ batch : Batch,
      StartBatcher.loop (n : Int) StartBatcher.init (msgs.map Event.ofEntry) =
        ({ currentBatch := ∅ }, [{ reason := "size", batch := batch }]) ∧
      Batch.len batch = (n : Int) + 1 ∧
      batch.entries.Perm msgs ∧
      ∀ e ∈ msgs, batch.lookup e.1 = some e.2 := by
  have hsplit : msgs = msgs.take n ++ msgs.drop n := (List.take_append_drop n msgs).symm
  have hdl : (msgs.drop n).length = 1 := by simp [hlen]
  obtain ⟨x, hx⟩ := List.length_eq_one.mp hdl
  rw [hx] at hsplit
  have htl : (msgs.take n).length = n := by simp [hlen]
  have hk2 : (msgs.take n).keys.Nodup ∧ x.1 ∉ (msgs.take n).keys := by
    rw [hsplit] at hkeys
    simp only [List.keys, List.map_append, List.map_cons, List.map_nil] at hkeys
    have := List.nodup_append.mp hkeys
    refine ⟨this.1, fun h => this.2.2 h (by simp)⟩
  have hacc := loop_accumulate (n : Int) (msgs.take n) StartBatcher.init hk2.1
    (fun k _ => AList.not_mem_empty k) (by
      rw [htl]
      simp [StartBatcher.init, len_empty])
  refine ⟨hacc.1, ?_⟩
  have hent : (StartBatcher.loop (n : Int) StartBatcher.init
      ((msgs.take n).map Event.ofEntry)).1.currentBatch.entries = (msgs.take n).reverse := by
    rw [hacc.2]
    simp [StartBatcher.init]
  have hxn : x.1 ∉ (StartBatcher.loop (n : Int) StartBatcher.init
      ((msgs.take n).map Event.ofEntry)).1.currentBatch := by
    rw [AList.mem_keys, AList.keys, hent]
    simpa [List.keys] using hk2.2
  have hbl : Batch.len ((StartBatcher.loop (n : Int) StartBatcher.init
      ((msgs.take n).map Event.ofEntry)).1.currentBatch.insert x.1 x.2) = (n : Int) + 1 := by
    rw [len_insert_of_not_mem _ _ _ hxn, Batch.len, hent]
    simp [htl]
  have hbe : ((StartBatcher.loop (n : Int) StartBatcher.init
      ((msgs.take n).map Event.ofEntry)).1.currentBatch.insert x.1 x.2).entries =
      msgs.reverse := by
    rw [AList.insert_entries, List.kerase_of_not_mem_keys hxn, hent]
    conv_rhs => rw [hsplit]
    simp
  refine ⟨(StartBatcher.loop (n : Int) StartBatcher.init
      ((msgs.take n).map Event.ofEntry)).1.currentBatch.insert x.1 x.2, ?_, hbl, ?_, ?_⟩
  · have hno : Event.shutdown ∉ (msgs.take n).map Event.ofEntry := by
      intro h
      obtain ⟨a, _, ha⟩ := List.mem_map.mp h
      simp [Event.ofEntry] at ha
    conv_lhs => rw [hsplit]
    rw [List.map_append, loop_append _ _ _ hno, hacc.1]
    simp only [List.map_cons, List.map_nil, Event.ofEntry]
    rw [loop_cons _ _ _ _ (by simp),
      select_incoming_flush _ _ _ _ (by rw [hbl]; omega)]
    simp [loop_nil]
  · rw [hbe]
    exact List.reverse_perm msgs
  · intro e he
    have hmem : e ∈ ((StartBatcher.loop (n : Int) StartBatcher.init
        ((msgs.take n).map Event.ofEntry)).1.currentBatch.insert x.1 x.2).entries := by
      rw [hbe]
      exact List.mem_reverse.mpr he
    exact Option.mem_def.mp (AList.mem_lookup_iff.mpr hmem)

/-- Witness of C1: batch size 2 and three arrivals under the keys 10, 11, 12. -/
theorem size_flush_witness :
    ([⟨10, ⟨"a", "", []⟩⟩, ⟨11, ⟨"b", "", []⟩⟩, ⟨12, ⟨"c", "", []⟩⟩] :
        List (Sigma (fun _ : Time => Msg))).length = 2 + 1 ∧
    ∃ batch : Batch,
      StartBatcher.loop ((2 : Nat) : Int) StartBatcher.init
          (([⟨10, ⟨"a", "", []⟩⟩, ⟨11, ⟨"b", "", []⟩⟩, ⟨12, ⟨"c", "", []⟩⟩] :
            List (Sigma (fun _ : Time => Msg))).map Event.ofEntry) =
        ({ currentBatch := ∅ }, [{ reason := "size", batch := batch }]) ∧
      Batch.len batch = ((2 : Nat) : Int) + 1 ∧
      batch.entries.Perm [⟨10, ⟨"a", "", []⟩⟩, ⟨11, ⟨"b", "", []⟩⟩, ⟨12, ⟨"c", "", []⟩⟩] ∧
      ∀ e ∈ ([⟨10, ⟨"a", "", []⟩⟩, ⟨11, ⟨"b", "", []⟩⟩, ⟨12, ⟨"c", "", []⟩⟩] :
          List (Sigma (fun _ : Time => Msg))), batch.lookup e.1 = some e.2 :=
  ⟨rfl, (size_flush 2 [⟨10, ⟨"a", "", []⟩⟩, ⟨11, ⟨"b", "", []⟩⟩, ⟨12, ⟨"c", "", []⟩⟩] rfl
    (by decide)).2⟩

end messaging

namespace messaging

/-! ### The pool: every message goes to one Batcher -/

theorem perm_chain {α : Type} (D1 E1 a1 E0 Dr Ef ar : List α)
    (h1 : (D1 ++ E1).Perm (a1 ++ E0)) (h2 : (Dr ++ Ef).Perm (ar ++ E1)) :
    (D1 ++ Dr ++ Ef).Perm (a1 ++ ar ++ E0) := by
  have s1 : (D1 ++ Dr ++ Ef).Perm (D1 ++ (ar ++ E1)) := by
    rw [List.append_assoc]
    exact List.Perm.append_left _ h2
  have s2 : (D1 ++ (ar ++ E1)).Perm (ar ++ (D1 ++ E1)) := by
    rw [← List.append_assoc, ← List.append_assoc]
    exact List.Perm.append_right _ List.perm_append_comm
  have s3 : (ar ++ (D1 ++ E1)).Perm (ar ++ (a1 ++ E0)) := List.Perm.append_left _ h1
  have s4 : (ar ++ (a1 ++ E0)).Perm (a1 ++ ar ++ E0) := by
    rw [← List.append_assoc]
    exact List.Perm.append_right _ List.perm_append_comm
  exact ((s1.trans s2).trans s3).trans s4

theorem Pool.entries_split (A B : List Worker) (w : Worker) :
    Pool.entries (A ++ w :: B) =
      Pool.entries A ++ (w.batcher.currentBatch.entries ++ Pool.entries B) := by
  simp [Pool.entries]

theorem Pool.held_eq (ws : List Worker) :
    Pool.held ws = (Pool.entries ws).map Sigma.snd := by
  induction ws with
  | nil => rfl
  | cons w ws ih =>
    simp only [Pool.held, Pool.entries, List.map_cons, List.flatten_cons,
      List.map_append] at ih ⊢
    rw [ih]
    rfl

theorem Pool.taken_eq (evs : List PoolEvent) :
    Pool.taken evs = (arrivals (evs.map PoolEvent.event)).map Sigma.snd := by
  induction evs with
  | nil => rfl
  | cons e es ih =>
    cases e <;> simp [Pool.taken, PoolEvent.event, arrivals, ih]

theorem Pool.step_length (batchSize : Int) (ws : List Worker) (e : PoolEvent) :
    (Pool.step batchSize ws e).1.length = ws.length := by
  unfold Pool.step
  cases h : ws[e.worker]? with
  | none => rfl
  | some w => simp

theorem Pool.step_entries (batchSize : Int) (ws : List Worker) (e : PoolEvent)
    (hw : e.worker < ws.length)
    (hfresh : ∀ w, ws[e.worker]? = some w → ∀ now m, e.event = Event.incoming now m →
      now ∉ w.batcher.currentBatch) :
    (dispatchedEntries (Pool.step batchSize ws e).2 ++
        Pool.entries (Pool.step batchSize ws e).1).Perm
      (arrivals [e.event] ++ Pool.entries ws) := by
  have hget : ws[e.worker]? = some ws[e.worker] := List.getElem?_eq_getElem hw
  have hsel := select_entries batchSize ws[e.worker].batcher e.event (hfresh _ hget)
  have hsplit : ws = ws.take e.worker ++ ws[e.worker] :: ws.drop (e.worker + 1) := by
    rw [List.getElem_cons_drop, List.take_append_drop]
  have hE := congrArg Pool.entries hsplit
  rw [Pool.entries_split] at hE
  unfold Pool.step
  rw [hget]
  simp only
  rw [List.set_eq_take_cons_drop _ hw, Pool.entries_split, hE]
  generalize Pool.entries (ws.take e.worker) = A
  generalize Pool.entries (ws.drop (e.worker + 1)) = B
  generalize dispatchedEntries
    (StartBatcher.select batchSize ws[e.worker].batcher e.event).spawned = D at hsel ⊢
  generalize (StartBatcher.select batchSize
    ws[e.worker].batcher e.event).state.currentBatch.entries = E1 at hsel ⊢
  generalize ws[e.worker].batcher.currentBatch.entries = E0 at hsel ⊢
  generalize arrivals [e.event] = a at hsel ⊢
  have s1 : (D ++ (A ++ (E1 ++ B))).Perm (A ++ ((D ++ E1) ++ B)) := by
    have s0 := List.Perm.append_right (E1 ++ B)
      (List.perm_append_comm : (D ++ A).Perm (A ++ D))
    simpa [List.append_assoc] using s0
  have s2 : (A ++ ((a ++ E0) ++ B)).Perm (a ++ (A ++ (E0 ++ B))) := by
    have s0 := List.Perm.append_right (E0 ++ B)
      (List.perm_append_comm : (A ++ a).Perm (a ++ A))
    simpa [List.append_assoc] using s0
  rw [hsel] at s1
  exact s1.trans s2

theorem Pool.step_get (batchSize : Int) (ws : List Worker) (e : PoolEvent) (j : Nat)
    (w' : Worker) (h : (Pool.step batchSize ws e).1[j]? = some w') :
    (j ≠ e.worker ∧ ws[j]? = some w') ∨
    (j = e.worker ∧ ∃ w, ws[j]? = some w ∧
      w'.batcher = (StartBatcher.select batchSize w.batcher e.event).state) := by
  unfold Pool.step at h
  cases hg : ws[e.worker]? with
  | none =>
    rw [hg] at h
    simp only at h
    left
    refine ⟨fun hj => ?_, h⟩
    rw [hj, hg] at h
    exact Option.noConfusion h
  | some w =>
    rw [hg] at h
    simp only at h
    by_cases hj : j = e.worker
    · right
      refine ⟨hj, w, hj ▸ hg, ?_⟩
      subst hj
      rw [List.getElem?_set] at h
      simp only [if_true] at h
      split at h
      · cases h; rfl
      · exact Option.noConfusion h
    · left
      rw [List.getElem?_set_ne (Ne.symm hj)] at h
      exact ⟨hj, h⟩

theorem Pool.eventsAt_cons (i : Nat) (e : PoolEvent) (es : List PoolEvent) :
    Pool.eventsAt i (e :: es) =
      if e.worker = i then e.event :: Pool.eventsAt i es else Pool.eventsAt i es := by
  unfold Pool.eventsAt
  by_cases h : e.worker = i <;> simp [List.filter_cons, h]

end messaging

namespace messaging

theorem Pool.run_entries (batchSize : Int) (evs : List PoolEvent) :
    ∀ ws : List Worker, (∀ e ∈ evs, e.worker < ws.length) →
      (∀ i, (arrivals (Pool.eventsAt i evs)).keys.Nodup) →
      (∀ i w, ws[i]? = some w → ∀ k ∈ (arrivals (Pool.eventsAt i evs)).keys,
        k ∉ w.batcher.currentBatch) →
      (dispatchedEntries (Pool.run batchSize ws evs).2 ++
          Pool.entries (Pool.run batchSize ws evs).1).Perm
        (arrivals (evs.map PoolEvent.event) ++ Pool.entries ws) := by
  induction evs with
  | nil => intro ws _ _ _; simp [Pool.run, dispatchedEntries, arrivals]
  | cons e es ih =>
    intro ws hw hnd hfresh
    have hwe : e.worker < ws.length := hw e (by simp)
    have hat : ∀ i, (arrivals (Pool.eventsAt i (e :: es))).keys =
        if e.worker = i then (arrivals [e.event]).keys ++ (arrivals (Pool.eventsAt i es)).keys
        else (arrivals (Pool.eventsAt i es)).keys := by
      intro i
      rw [Pool.eventsAt_cons]
      by_cases h : e.worker = i
      · simp only [h, if_true]
        rw [arrivals_cons_ne, List.keys, List.map_append]
      · simp only [h, if_false]
    have h1 := Pool.step_entries batchSize ws e hwe (by
      intro w hget now m hev
      apply hfresh e.worker w hget
      rw [hat, if_pos rfl, hev]
      simp [arrivals, List.keys])
    have h2 := ih (Pool.step batchSize ws e).1
      (by
        intro e' he'
        rw [Pool.step_length]
        exact hw e' (by simp [he']))
      (by
        intro i
        have := hnd i
        rw [hat] at this
        by_cases h : e.worker = i
        · rw [if_pos h] at this
          exact (List.nodup_append.mp this).2.1
        · rw [if_neg h] at this
          exact this)
      (by
        intro i w' hget k hk hmem
        rcases Pool.step_get batchSize ws e i w' hget with ⟨hne, hold⟩ | ⟨heq, w, hold, hb⟩
        · apply hfresh i w' hold k _ hmem
          rw [hat, if_neg (Ne.symm hne)]
          exact hk
        · have hni := hnd i
          rw [hat, if_pos heq.symm] at hni
          rw [hb] at hmem
          rcases select_keys batchSize w.batcher e.event k hmem with h3 | h3
          · apply hfresh i w hold k _ h3
            rw [hat, if_pos heq.symm]
            exact List.mem_append_right _ hk
          · exact (List.nodup_append.mp hni).2.2 h3 hk)
    simp only [Pool.run, List.map_cons]
    rw [arrivals_cons_ne, dispatchedEntries_append]
    exact perm_chain _ _ _ _ _ _ _ h1 h2

theorem BuildBatchingWorkerPool.spawn_workers (n : Nat) :
    ∀ pool : Pool,
      (BuildBatchingWorkerPool.spawn n pool).workers.length = pool.workers.length + n ∧
      (BuildBatchingWorkerPool.spawn n pool).wg.counter = pool.wg.counter + (n : Int) ∧
      ∀ w ∈ (BuildBatchingWorkerPool.spawn n pool).workers,
        w ∈ pool.workers ∨ w.batcher = StartBatcher.init := by
  induction n with
  | zero =>
    intro pool
    exact ⟨by simp [BuildBatchingWorkerPool.spawn], by simp [BuildBatchingWorkerPool.spawn],
      fun w hw => Or.inl hw⟩
  | succ n ih =>
    intro pool
    have h := ih ⟨⟨pool.wg.counter + 1⟩,
      pool.workers ++ [⟨((n + 1 : Nat) : Int), StartBatcher.init⟩]⟩
    simp only [BuildBatchingWorkerPool.spawn]
    refine ⟨?_, ?_, ?_⟩
    · rw [h.1]
      simp
      omega
    · rw [h.2.1]
      push_cast
      omega
    · intro w hw
      rcases h.2.2 w hw with h1 | h1
      · rcases List.mem_append.mp h1 with h2 | h2
        · exact Or.inl h2
        · right
          simp only [List.mem_singleton] at h2
          rw [h2]
      · exact Or.inr h1

theorem BuildBatchingWorkerPool.workers_fresh (poolSize : Int) :
    (BuildBatchingWorkerPool poolSize).1.workers.length = poolSize.toNat ∧
    (BuildBatchingWorkerPool poolSize).1.wg.counter = (poolSize.toNat : Int) ∧
    ∀ w ∈ (BuildBatchingWorkerPool poolSize).1.workers, w.batcher = StartBatcher.init := by
  have h := BuildBatchingWorkerPool.spawn_workers poolSize.toNat
    { wg := { counter := 0 }, workers := [] }
  unfold BuildBatchingWorkerPool
  refine ⟨by simpa using h.1, by simpa using h.2.1, ?_⟩
  intro w hw
  rcases h.2.2 w hw with h1 | h1
  · simp at h1
  · exact h1

theorem Pool.entries_fresh (ws : List Worker)
    (h : ∀ w ∈ ws, w.batcher = StartBatcher.init) : Pool.entries ws = [] := by
  induction ws with
  | nil => rfl
  | cons w ws ih =>
    have hw := h w (by simp)
    have hr := ih (fun w' hw' => h w' (by simp [hw']))
    simp only [Pool.entries, List.map_cons, List.flatten_cons] at hr ⊢
    rw [hr, hw]
    simp [StartBatcher.init]

/-- C3: no message is lost or duplicated. For a batch size that is not
negative, (1) at one Batcher started empty, after any sequence of arrivals and
ticks whose arrival keys are pairwise distinct, the messages of the dispatched
batches together with those of the current batch are the arrived messages,
each as often as it arrived; (2) in a pool of `poolSize` workers, where each
message taken from the shared queue goes to the Batcher of the one worker that
took it and the keys are pairwise distinct at each Batcher, the messages of
all dispatched batches together with those held by the workers are the
messages taken from the queue, each as often as it was taken. -/
theorem no_message_loss (batchSize : Int) (hbs : 0 ≤ batchSize) :
    (∀ evs : List Event, Event.shutdown ∉ evs → (arrivals evs).keys.Nodup →
      (dispatchedMessages (StartBatcher.loop batchSize StartBatcher.init evs).2 ++
          (StartBatcher.loop batchSize StartBatcher.init evs).1.currentBatch.messages).Perm
        ((arrivals evs).map Sigma.snd)) ∧
    (∀ (poolSize : Int) (pevs : List PoolEvent),
      (∀ e ∈ pevs, (e.worker : Int) < poolSize) →
      (∀ i, (arrivals (Pool.eventsAt i pevs)).keys.Nodup) →
      (dispatchedMessages
            (Pool.run batchSize (BuildBatchingWorkerPool poolSize).1.workers pevs).2 ++
          Pool.held
            (Pool.run batchSize (BuildBatchingWorkerPool poolSize).1.workers pevs).1).Perm
        (Pool.taken pevs)) := by
  have _ := hbs
  constructor
  · intro evs hno hnd
    have h := loop_entries batchSize evs hno StartBatcher.init hnd
      (fun k _ => AList.not_mem_empty k)
    have h2 := h.map Sigma.snd
    simp only [StartBatcher.init, AList.empty_entries, List.append_nil] at h2
    rw [dispatchedMessages_eq, Batch.messages, ← List.map_append]
    exact h2
  · intro poolSize pevs hw hnd
    have hf := BuildBatchingWorkerPool.workers_fresh poolSize
    have h := Pool.run_entries batchSize pevs (BuildBatchingWorkerPool poolSize).1.workers
      (by
        intro e he
        rw [hf.1]
        have := hw e he
        omega)
      hnd
      (by
        intro i w hget k _
        have hmem : w ∈ (BuildBatchingWorkerPool poolSize).1.workers :=
          List.mem_iff_getElem?.mpr ⟨i, hget⟩
        rw [hf.2.2 w hmem]
        exact AList.not_mem_empty k)
    rw [Pool.entries_fresh _ hf.2.2, List.append_nil] at h
    have h2 := h.map Sigma.snd
    rw [dispatchedMessages_eq, Pool.held_eq, Pool.taken_eq, ← List.map_append]
    exact h2

/-- Witness of C3: batch size 1; one Batcher receiving three messages and a
tick; a pool of two workers sharing three messages. -/
theorem no_message_loss_witness :
    (0 : Int) ≤ 1 ∧
    (dispatchedMessages (StartBatcher.loop 1 StartBatcher.init
          [Event.incoming 1 ⟨"a", "", []⟩, Event.incoming 2 ⟨"b", "", []⟩,
            Event.incoming 3 ⟨"c", "", []⟩, Event.ticker]).2 ++
        (StartBatcher.loop 1 StartBatcher.init
          [Event.incoming 1 ⟨"a", "", []⟩, Event.incoming 2 ⟨"b", "", []⟩,
            Event.incoming 3 ⟨"c", "", []⟩, Event.ticker]).1.currentBatch.messages).Perm
      [⟨"a", "", []⟩, ⟨"b", "", []⟩, ⟨"c", "", []⟩] ∧
    (dispatchedMessages (Pool.run 1 (BuildBatchingWorkerPool 2).1.workers
          [PoolEvent.receive 0 1 ⟨"a", "", []⟩, PoolEvent.receive 1 1 ⟨"b", "", []⟩,
            PoolEvent.receive 0 2 ⟨"c", "", []⟩, PoolEvent.ticker 1]).2 ++
        Pool.held (Pool.run 1 (BuildBatchingWorkerPool 2).1.workers
          [PoolEvent.receive 0 1 ⟨"a", "", []⟩, PoolEvent.receive 1 1 ⟨"b", "", []⟩,
            PoolEvent.receive 0 2 ⟨"c", "", []⟩, PoolEvent.ticker 1]).1).Perm
      [⟨"a", "", []⟩, ⟨"b", "", []⟩, ⟨"c", "", []⟩] :=
  ⟨by decide,
    (no_message_loss 1 (by decide)).1 _ (by decide) (by decide),
    (no_message_loss 1 (by decide)).2 2 _ (by decide) (by
      intro i
      by_cases h0 : i = 0
      · subst h0; decide
      · by_cases h1 : i = 1
        · subst h1; decide
        · have : Pool.eventsAt i
              [PoolEvent.receive 0 1 ⟨"a", "", []⟩, PoolEvent.receive 1 1 ⟨"b", "", []⟩,
                PoolEvent.receive 0 2 ⟨"c", "", []⟩, PoolEvent.ticker 1] = [] := by
            have h0' : ¬ (0 = i) := fun h => h0 h.symm
            have h1' : ¬ (1 = i) := fun h => h1 h.symm
            simp [Pool.eventsAt, PoolEvent.worker, h0', h1']
          rw [this]
          decide)⟩

end messaging

namespace messaging

/-! ### Arrival-key collisions -/

theorem messages_insert_subset (b : Batch) (k : Time) (m x : Msg)
    (hx : x ∈ Batch.messages (b.insert k m)) : x = m ∨ x ∈ Batch.messages b := by
  unfold Batch.messages at hx ⊢
  rw [AList.insert_entries] at hx
  simp only [List.map_cons, List.mem_cons] at hx
  rcases hx with h | h
  · exact Or.inl h
  · right
    exact (List.Sublist.map _ (List.kerase_sublist k b.entries)).subset h

theorem select_absent (batchSize : Int) (s : Batcher) (e : Event) (x : Msg)
    (hs : x ∉ Batch.messages s.currentBatch)
    (he : ∀ k m, e = Event.incoming k m → m ≠ x) :
    x ∉ Batch.messages (StartBatcher.select batchSize s e).state.currentBatch ∧
    ∀ d ∈ (StartBatcher.select batchSize s e).spawned, x ∉ Batch.messages d.batch := by
  cases e with
  | incoming now m =>
    have hins : x ∉ Batch.messages (s.currentBatch.insert now m) := by
      intro hx
      rcases messages_insert_subset _ _ _ _ hx with h | h
      · exact he now m rfl h.symm
      · exact hs h
    by_cases h : Batch.len (s.currentBatch.insert now m) > batchSize
    · rw [select_incoming_flush _ _ _ _ h]
      refine ⟨by simp [Batch.messages], ?_⟩
      intro d hd
      simp only [List.mem_singleton] at hd
      subst hd
      exact hins
    · rw [select_incoming_keep _ _ _ _ h]
      exact ⟨hins, by simp⟩
  | ticker =>
    by_cases h : Batch.len s.currentBatch > 0
    · rw [select_ticker_flush _ _ h]
      refine ⟨by simp [Batch.messages], ?_⟩
      intro d hd
      simp only [List.mem_singleton] at hd
      subst hd
      exact hs
    · rw [select_ticker_idle _ _ h]
      exact ⟨hs, by simp⟩
  | shutdown =>
    simp only [StartBatcher.select]
    exact ⟨hs, by simp⟩

theorem loop_absent (batchSize : Int) (x : Msg) (evs : List Event) :
    ∀ s : Batcher, x ∉ Batch.messages s.currentBatch →
      (∀ k m, Event.incoming k m ∈ evs → m ≠ x) →
      x ∉ Batch.messages (StartBatcher.loop batchSize s evs).1.currentBatch ∧
      ∀ d ∈ (StartBatcher.loop batchSize s evs).2, x ∉ Batch.messages d.batch := by
  induction evs with
  | nil => intro s hs _; simpa [loop_nil] using hs
  | cons e es ih =>
    intro s hs hev
    have hsel := select_absent batchSize s e x hs (fun k m h => hev k m (by simp [h]))
    by_cases he : e = Event.shutdown
    · subst he
      rw [loop_cons_shutdown]
      exact ⟨hs, by simp⟩
    · rw [loop_cons _ _ _ _ he]
      have hrest := ih _ hsel.1 (fun k m h => hev k m (by simp [h]))
      refine ⟨hrest.1, ?_⟩
      intro d hd
      rcases List.mem_append.mp hd with h | h
      · exact hsel.2 d h
      · exact hrest.2 d h

theorem overwritten_absent (b : Batch) (now : Time) (old new : Msg)
    (hunique : ∀ k, b.lookup k = some old → k = now) (hnew : new ≠ old) :
    old ∉ Batch.messages (b.insert now new) := by
  intro hx
  unfold Batch.messages at hx
  rw [AList.insert_entries] at hx
  simp only [List.map_cons, List.mem_cons] at hx
  rcases hx with h | h
  · exact hnew h.symm
  · obtain ⟨⟨k, v⟩, hmem, hv⟩ := List.mem_map.mp h
    simp only at hv
    subst hv
    have hsub : (⟨k, v⟩ : Sigma (fun _ : Time => Msg)) ∈ b.entries :=
      (List.kerase_sublist now b.entries).subset hmem
    have hk : k = now := hunique k (Option.mem_def.mp (AList.mem_lookup_iff.mpr hsub))
    have hkey : k ∈ (List.kerase now b.entries).keys := List.mem_keys_of_mem hmem
    rw [hk] at hkey
    exact List.not_mem_keys_kerase now b.nodupKeys hkey

/-- C4: when a message arrives with a clock reading that is already the key of
a message `old` of the current batch, and the batch is within its bound (so
the batch size is at least 1): the iteration stores the new message under that
key in place of `old`, the size of the current batch is unchanged, no dispatch
is spawned by that arrival, and, `old` being held under that key only and not
delivered again, `old` is in no batch dispatched from then on nor in the
current batch. -/
theorem key_collision (batchSize : Int) (s : Batcher) (now : Time) (old new : Msg)
    (later : List Event)
    (hold : s.currentBatch.lookup now = some old)
    (hbound : Batch.len s.currentBatch ≤ batchSize)
    (hunique : ∀ k, s.currentBatch.lookup k = some old → k = now)
    (hnew : new ≠ old)
    (hlater : ∀ k m, Event.incoming k m ∈ later → m ≠ old) :
    StartBatcher.select batchSize s (Event.incoming now new) =
      { state := { currentBatch := s.currentBatch.insert now new },
        spawned := [], returned := false } ∧
    (s.currentBatch.insert now new).lookup now = some new ∧
    Batch.len (s.currentBatch.insert now new) = Batch.len s.currentBatch ∧
    old ∉ Batch.messages (s.currentBatch.insert now new) ∧
    (∀ d ∈ (StartBatcher.loop batchSize
        (StartBatcher.select batchSize s (Event.incoming now new)).state later).2,
      old ∉ Batch.messages d.batch) ∧
    old ∉ Batch.messages (StartBatcher.loop batchSize
        (StartBatcher.select batchSize s (Event.incoming now new)).state later).1.currentBatch := by
  have hmem : now ∈ s.currentBatch := by
    rw [← AList.lookup_isSome, hold]
    rfl
  have hlen := len_insert_of_mem s.currentBatch now new hmem
  have hkeep : ¬ Batch.len (s.currentBatch.insert now new) > batchSize := by
    rw [hlen]
    omega
  have habs := overwritten_absent s.currentBatch now old new hunique hnew
  have hsel := select_incoming_keep batchSize s now new hkeep
  refine ⟨hsel, AList.lookup_insert _, hlen, habs, ?_, ?_⟩
  · rw [hsel]
    exact (loop_absent batchSize old later _ habs hlater).2
  · rw [hsel]
    exact (loop_absent batchSize old later _ habs hlater).1

/-- Witness of C4: batch size 1, message `a` held under key 5, message `b`
arrives at clock reading 5, then a message `c` at 6 forces a size flush. -/
theorem key_collision_witness :
    StartBatcher.select 1 { currentBatch := AList.singleton 5 ⟨"a", "", []⟩ }
        (Event.incoming 5 ⟨"b", "", []⟩) =
      { state := { currentBatch :=
          (AList.singleton 5 ⟨"a", "", []⟩ : Batch).insert 5 ⟨"b", "", []⟩ },
        spawned := [], returned := false } ∧
    ∀ d ∈ (StartBatcher.loop 1
        (StartBatcher.select 1 { currentBatch := AList.singleton 5 ⟨"a", "", []⟩ }
          (Event.incoming 5 ⟨"b", "", []⟩)).state
        [Event.incoming 6 ⟨"c", "", []⟩]).2,
      (⟨"a", "", []⟩ : Msg) ∉ Batch.messages d.batch :=
  have h := key_collision 1 { currentBatch := AList.singleton 5 ⟨"a", "", []⟩ } 5
    ⟨"a", "", []⟩ ⟨"b", "", []⟩ [Event.incoming 6 ⟨"c", "", []⟩]
    (by decide) (by decide)
    (by
      intro k hk
      by_contra hne
      rw [show (AList.singleton 5 ⟨"a", "", []⟩ : Batch) = AList.insert 5 ⟨"a", "", []⟩ ∅ from rfl,
        AList.lookup_insert_ne hne] at hk
      simp at hk)
    (by decide)
    (by
      intro k m hm
      simp only [List.mem_singleton, Event.incoming.injEq] at hm
      rw [hm.2]
      decide)
  ⟨h.1, h.2.2.2.2.1⟩

end messaging

namespace messaging

/-! ### Start-up when the subscription fails -/

theorem makechan_ok (maxChan size : Int) (h0 : 0 ≤ size) (h1 : size ≤ maxChan) :
    makechan maxChan size = Except.ok () := by
  unfold makechan
  rw [if_neg (by omega)]

theorem makechan_panic (maxChan size : Int) (h : size < 0 ∨ maxChan < size) :
    makechan maxChan size = Except.error "makechan: size out of range" := by
  unfold makechan
  rw [if_pos h]

theorem BuildBatchingWorkerPool.start_ok (maxChan batchSize : Int) (h0 : 0 ≤ batchSize)
    (h1 : batchSize ≤ maxChan) (ws : List Worker)
    (hws : ∀ w ∈ ws, w.batcher = StartBatcher.init) :
    BuildBatchingWorkerPool.start maxChan batchSize ws = Except.ok ws := by
  have hsb : StartBatcher maxChan batchSize = Except.ok StartBatcher.init := by
    unfold StartBatcher
    rw [makechan_ok maxChan batchSize h0 h1]
  induction ws with
  | nil => rfl
  | cons w ws ih =>
    have hw := hws w (by simp)
    have hrest := ih (fun w' hw' => hws w' (by simp [hw']))
    simp only [BuildBatchingWorkerPool.start, hsb, hrest]
    rw [← hw]

/-- Counterexample to C5 as stated: with a pool size of 2, buffer and batch
sizes that `make` accepts, and a bus that refuses the subscription,
`ConsumeInBatches` returns the error with nil subscription and barrier, and
the two workers it started are still running. So it is not the case that a
failed subscription leaves no worker running. -/
theorem registration_failure_leaves_workers :
    ¬ (∀ (maxChan : Int) (nc : Conn) (config : IngestConfig) (err : String),
        0 ≤ config.BufferSize → config.BufferSize ≤ maxChan →
        0 ≤ config.BatchSize → config.BatchSize ≤ maxChan →
        BufferedSubscribe nc config.Subject config.Group = Except.error err →
        ∃ rt : Runtime,
          ConsumeInBatches maxChan nc config =
            Except.ok ({ sub := none, wg := none, err := some err }, rt) ∧
          rt.running = []) := by
  intro h
  obtain ⟨rt, hrun, hnil⟩ := h (2 ^ 45)
    { Subscribe := fun _ => Except.error "nats: invalid subject",
      QueueSubscribe := fun _ _ => Except.error "nats: invalid subject" }
    { BufferSize := 10, PoolSize := 2, BatchSize := 5, BatchTimeout := 1,
      Subject := "", Group := "" }
    "nats: invalid subject" (by decide) (by decide) (by decide) (by decide) rfl
  have hrt : rt.running.length = 2 := by
    have hval : ConsumeInBatches (2 ^ 45)
        { Subscribe := fun _ => Except.error "nats: invalid subject",
          QueueSubscribe := fun _ _ => Except.error "nats: invalid subject" }
        { BufferSize := 10, PoolSize := 2, BatchSize := 5, BatchTimeout := 1,
          Subject := "", Group := "" } =
        Except.ok ({ sub := none, wg := none, err := some "nats: invalid subject" },
          { sharedClosed := false,
            pool := { wg := { counter := 2 },
                      workers := [{ worker_id := 2, batcher := StartBatcher.init },
                                  { worker_id := 1, batcher := StartBatcher.init }] } }) := by
      rfl
    rw [hval] at hrun
    injection hrun with hrun
    injection hrun with _ hrun
    rw [← hrun]
    rfl
  rw [hnil] at hrt
  exact absurd hrt (by decide)

/-- C5, amended: for a buffer size and a batch size that `make` accepts (not
negative and within the limit of the runtime; with another size the call or
the workers panic), when subscribing to the subject fails `ConsumeInBatches`
returns a nil subscription, a nil completion barrier and the subscription
error; the shared queue has not been closed, and the workers started by
`BuildBatchingWorkerPool`, `PoolSize` of them (none for a pool size below 1),
are all still running, the barrier counting every one of them. -/
theorem registration_failure (maxChan : Int) (nc : Conn) (config : IngestConfig)
    (err : String)
    (hbuf0 : 0 ≤ config.BufferSize) (hbuf1 : config.BufferSize ≤ maxChan)
    (hbatch0 : 0 ≤ config.BatchSize) (hbatch1 : config.BatchSize ≤ maxChan)
    (hfail : BufferedSubscribe nc config.Subject config.Group = Except.error err) :
    ∃ rt : Runtime,
      ConsumeInBatches maxChan nc config =
        Except.ok ({ sub := none, wg := none, err := some err }, rt) ∧
      rt.sharedClosed = false ∧
      rt.running = (BuildBatchingWorkerPool config.PoolSize).1.workers ∧
      rt.running.length = config.PoolSize.toNat ∧
      rt.pool.wg.counter = (config.PoolSize.toNat : Int) := by
  have hf := BuildBatchingWorkerPool.workers_fresh config.PoolSize
  have hnone : (BuildBatchingWorkerPool config.PoolSize).2 = none := rfl
  have hstart := BuildBatchingWorkerPool.start_ok maxChan config.BatchSize hbatch0 hbatch1
    (BuildBatchingWorkerPool config.PoolSize).1.workers hf.2.2
  refine ⟨{ sharedClosed := false,
            pool := { wg := (BuildBatchingWorkerPool config.PoolSize).1.wg,
                      workers := (BuildBatchingWorkerPool config.PoolSize).1.workers } },
    ?_, rfl, rfl, hf.1, hf.2.1⟩
  unfold ConsumeInBatches
  simp only [makechan_ok maxChan config.BufferSize hbuf0 hbuf1, hstart, hnone, hfail]

/-- Witness of C5, amended: a pool size of 3, sizes 10 and 5, and a bus
refusing the queue subscription. -/
theorem registration_failure_witness :
    ∃ rt : Runtime,
      ConsumeInBatches (2 ^ 45)
          { Subscribe := fun _ => Except.ok ⟨"metrics", ""⟩,
            QueueSubscribe := fun _ _ => Except.error "nats: connection closed" }
          { BufferSize := 10, PoolSize := 3, BatchSize := 5, BatchTimeout := 1,
            Subject := "metrics", Group := "doppler" } =
        Except.ok ({ sub := none, wg := none, err := some "nats: connection closed" }, rt) ∧
      rt.running.length = Int.toNat 3 :=
  have h := registration_failure (2 ^ 45)
    { Subscribe := fun _ => Except.ok ⟨"metrics", ""⟩,
      QueueSubscribe := fun _ _ => Except.error "nats: connection closed" }
    { BufferSize := 10, PoolSize := 3, BatchSize := 5, BatchTimeout := 1,
      Subject := "metrics", Group := "doppler" }
    "nats: connection closed" (by decide) (by decide) (by decide) (by decide) rfl
  Exists.elim h (fun rt hrt => ⟨rt, hrt.1, hrt.2.2.2.1⟩)

/-- A negative buffer size makes `ConsumeInBatches` panic on line 13, and a
negative batch size makes the workers panic in `StartBatcher`: no error is
returned then. -/
theorem ConsumeInBatches_panics (maxChan : Int) (nc : Conn) (config : IngestConfig) :
    (config.BufferSize < 0 →
      ConsumeInBatches maxChan nc config = Except.error "makechan: size out of range") ∧
    (0 ≤ config.BufferSize → config.BufferSize ≤ maxChan → 1 ≤ config.PoolSize →
      config.BatchSize < 0 →
      ConsumeInBatches maxChan nc config = Except.error "makechan: size out of range") := by
  constructor
  · intro h
    unfold ConsumeInBatches
    simp only [makechan_panic maxChan config.BufferSize (Or.inl h)]
  · intro h0 h1 hp hb
    have hf := BuildBatchingWorkerPool.workers_fresh config.PoolSize
    have hsb : StartBatcher maxChan config.BatchSize =
        Except.error "makechan: size out of range" := by
      unfold StartBatcher
      rw [makechan_panic maxChan config.BatchSize (Or.inl hb)]
    have hne : (BuildBatchingWorkerPool config.PoolSize).1.workers ≠ [] := by
      intro hnil
      have hl := hf.1
      rw [hnil] at hl
      simp only [List.length_nil] at hl
      omega
    unfold ConsumeInBatches
    simp only [makechan_ok maxChan config.BufferSize h0 h1]
    cases hws : (BuildBatchingWorkerPool config.PoolSize).1.workers with
    | nil => exact absurd hws hne
    | cons w ws => simp only [BuildBatchingWorkerPool.start, hsb]

/-! ### The dispatch wrapper -/

theorem wrapInt64_id (x : Int) (h1 : -(2 ^ 63) ≤ x) (h2 : x < 2 ^ 63) : wrapInt64 x = x := by
  unfold wrapInt64
  rw [Int.emod_eq_of_lt (by omega) (by omega)]
  omega

/-- C6: one call of `wrapped`, the counters holding 64-bit values below the
largest one: the handler is invoked once, with the batch given to `wrapped`,
at a moment when `inflightBatches` is one more than before the call; the state
behind the handler is what that one invocation made of it; when the call is
over `inflightBatches` is back to its value before the call and `sentBatches`
is one more than before. -/
theorem wrapped_counters {W : Type} (h : BatchHandler W) (batch : Batch) (p : Process W)
    (hin : -(2 ^ 63) ≤ p.inflightBatches ∧ p.inflightBatches < 2 ^ 63 - 1)
    (hsent : -(2 ^ 63) ≤ p.sentBatches ∧ p.sentBatches < 2 ^ 63 - 1) :
    (StartBatcher.wrapped h batch p).calls = p.calls ++ [(batch, p.inflightBatches + 1)] ∧
    (StartBatcher.wrapped h batch p).world = h batch p.world ∧
    (StartBatcher.wrapped h batch p).inflightBatches = p.inflightBatches ∧
    (StartBatcher.wrapped h batch p).sentBatches = p.sentBatches + 1 := by
  have e1 : AddInt64 p.inflightBatches 1 = p.inflightBatches + 1 :=
    wrapInt64_id _ (by omega) (by omega)
  have e2 : AddInt64 (p.inflightBatches + 1) (-1) = p.inflightBatches := by
    unfold AddInt64
    rw [wrapInt64_id _ (by omega) (by omega)]
    omega
  have e3 : AddInt64 p.sentBatches 1 = p.sentBatches + 1 :=
    wrapInt64_id _ (by omega) (by omega)
  simp only [StartBatcher.wrapped, e1, e2, e3]
  exact ⟨trivial, trivial, trivial, trivial⟩

/-- Witness of C6: two batches in flight, seven sent, a handler that counts
the entries it is given. -/
theorem wrapped_counters_witness :
    (StartBatcher.wrapped (fun (b : Batch) (n : Nat) => n + b.entries.length)
        (AList.singleton 3 ⟨"a", "", []⟩)
        { inflightBatches := 2, sentBatches := 7, world := 0, calls := [] }).inflightBatches = 2 ∧
    (StartBatcher.wrapped (fun (b : Batch) (n : Nat) => n + b.entries.length)
        (AList.singleton 3 ⟨"a", "", []⟩)
        { inflightBatches := 2, sentBatches := 7, world := 0, calls := [] }).sentBatches = 7 + 1 :=
  have h := wrapped_counters (fun (b : Batch) (n : Nat) => n + b.entries.length)
    (AList.singleton 3 ⟨"a", "", []⟩)
    { inflightBatches := 2, sentBatches := 7, world := 0, calls := [] }
    (by decide) (by decide)
  ⟨h.2.2.1, h.2.2.2⟩

end messaging

namespace kairos

open messaging

/-! ### The kairos handler -/

theorem buildHandler.parse_spec (Unmarshal : List UInt8 → Option RawMetric)
    (TrimSpace : String → String) (msgs : List Msg) :
    ∀ acc : Parsed,
      (buildHandler.parse Unmarshal TrimSpace msgs acc).parseFailed =
        acc.parseFailed +
          ((msgs.filter (fun raw => (Unmarshal raw.Data).isNone)).length : Int) ∧
      (buildHandler.parse Unmarshal TrimSpace msgs acc).parseSuccess =
        acc.parseSuccess +
          ((msgs.filter (fun raw => (Unmarshal raw.Data).isSome)).length : Int) ∧
      (buildHandler.parse Unmarshal TrimSpace msgs acc).payload =
        acc.payload ++ msgs.filterMap
          (fun raw => (Unmarshal raw.Data).map (buildHandler.outMetric TrimSpace)) := by
  induction msgs with
  | nil => intro acc; simp [buildHandler.parse]
  | cons raw rest ih =>
    intro acc
    cases hu : Unmarshal raw.Data with
    | none =>
      have h := ih { acc with parseFailed := acc.parseFailed + 1 }
      simp only [buildHandler.parse, hu]
      rw [h.1, h.2.1, h.2.2]
      simp [List.filter_cons, List.filterMap_cons, hu]
      omega
    | some metric =>
      have h := ih { acc with
        parseSuccess := acc.parseSuccess + 1,
        payload := acc.payload ++ [buildHandler.outMetric TrimSpace metric] }
      simp only [buildHandler.parse, hu]
      rw [h.1, h.2.1, h.2.2]
      simp [List.filter_cons, List.filterMap_cons, hu]
      omega

theorem length_filter_split {α : Type} (p : α → Option RawMetric) (l : List α) :
    (l.filter (fun x => (p x).isNone)).length + (l.filter (fun x => (p x).isSome)).length =
      l.length := by
  induction l with
  | nil => rfl
  | cons x xs ih =>
    cases hx : p x <;> simp [List.filter_cons, hx] <;> omega

/-- C7: for every batch, the parsing loop counts as failed exactly the
messages whose payload does not unmarshal and skips them, converts every other
message to a Point and puts it in the payload, in iteration order; so
`parseFailed + parseSuccess` is the number of messages of the batch, the
payload has `parseSuccess` points, and the handler calls `AddPoints` exactly
once, with that payload. -/
theorem bad_message_skipped (AddPoints : List Point → Option String)
    (Unmarshal : List UInt8 → Option RawMetric) (TrimSpace : String → String)
    (batch : Batch) (w : World) :
    (buildHandler.parse Unmarshal TrimSpace batch.messages ⟨[], 0, 0⟩).parseFailed =
      ((batch.messages.filter (fun raw => (Unmarshal raw.Data).isNone)).length : Int) ∧
    (buildHandler.parse Unmarshal TrimSpace batch.messages ⟨[], 0, 0⟩).payload =
      batch.messages.filterMap
        (fun raw => (Unmarshal raw.Data).map (buildHandler.outMetric TrimSpace)) ∧
    (buildHandler.parse Unmarshal TrimSpace batch.messages ⟨[], 0, 0⟩).parseFailed +
        (buildHandler.parse Unmarshal TrimSpace batch.messages ⟨[], 0, 0⟩).parseSuccess =
      Batch.len batch ∧
    (((buildHandler.parse Unmarshal TrimSpace batch.messages ⟨[], 0, 0⟩).payload.length : Nat)
        : Int) =
      (buildHandler.parse Unmarshal TrimSpace batch.messages ⟨[], 0, 0⟩).parseSuccess ∧
    (buildHandler AddPoints Unmarshal TrimSpace batch w).addPoints =
      w.addPoints ++
        [(buildHandler.parse Unmarshal TrimSpace batch.messages ⟨[], 0, 0⟩).payload] := by
  have h := buildHandler.parse_spec Unmarshal TrimSpace batch.messages ⟨[], 0, 0⟩
  have hsplit := length_filter_split (fun raw : Msg => Unmarshal raw.Data) batch.messages
  have hlen : (batch.messages.length : Int) = Batch.len batch := by
    simp [Batch.messages, Batch.len]
  refine ⟨by simpa using h.1, by simpa using h.2.2, ?_, ?_, ?_⟩
  · rw [h.1, h.2.1, ← hlen]
    simp only [zero_add]
    exact_mod_cast hsplit
  · rw [h.2.1, h.2.2]
    simp only [zero_add, List.nil_append, Nat.cast_inj]
    have : ∀ l : List Msg,
        (l.filterMap (fun raw => (Unmarshal raw.Data).map
          (buildHandler.outMetric TrimSpace))).length =
        (l.filter (fun raw => (Unmarshal raw.Data).isSome)).length := by
      intro l
      induction l with
      | nil => rfl
      | cons x xs ih =>
        cases hx : Unmarshal x.Data <;> simp [List.filter_cons, List.filterMap_cons, hx, ih]
    exact this _
  · unfold buildHandler
    simp only
    cases AddPoints
      (buildHandler.parse Unmarshal TrimSpace batch.messages ⟨[], 0, 0⟩).payload <;> rfl

/-- C9, the code at a metric stamped 1.5 s after the epoch: the Point gets
the timestamp 1 500 000, the nanoseconds divided by 1000, whereas the
milliseconds since the epoch are 1 500; in general the timestamp of the Point
is the nanoseconds divided, rounding toward zero, by 1000. -/
theorem timestamp_is_microseconds :
    (buildHandler.outMetric (fun s => s)
        { Name := "cpu", Value := 1, Timestamp := 1500000000, Dims := ∅ }).Timestamp = 1500000 ∧
    (1500000 : Int) ≠ Int.tdiv 1500000000 1000000 ∧
    ∀ (TrimSpace : String → String) (incomingMetric : RawMetric),
      (buildHandler.outMetric TrimSpace incomingMetric).Timestamp =
        Int.tdiv incomingMetric.Timestamp 1000 :=
  ⟨by decide, by decide, fun _ _ => rfl⟩

end kairos
